import Mathlib

/-!
Verification development for `validate-test-structure.py`, a static structural
analyzer for one Java test source file.  The script reads the file's text,
applies eight independent regex recognizers (via Python `re.findall`) and
prints a sectioned, human-readable report.

The embedding below translates each recognizer into an executable matcher over
`List Char` together with a driver `reFindall` reproducing Python's
`re.findall` scanning discipline (try every position left to right; on a
match, record it and resume at the match end; a match never has width zero
here since every pattern starts with a mandatory literal).  Character classes
are the ASCII readings of Python's `\w` and `\s`, which is what the analyzed
Java text uses.
-/

/-- ASCII reading of Python's `\w`: letters, digits, underscore. -/
def isWordChar (c : Char) : Bool := c.isAlphanum || c = '_'

/-- ASCII reading of Python's `\s`: space, tab, newline, carriage return,
vertical tab, form feed. -/
def isSpaceChar (c : Char) : Bool :=
  c = ' ' || c = '\t' || c = '\n' || c = '\r' || c = '\x0b' || c = '\x0c'

/-- Consume an exact literal (a regex's literal fragment); return the rest. -/
def dropLit : List Char → List Char → Option (List Char)
  | [], s => some s
  | _ :: _, [] => none
  | p :: ps, c :: s => if c = p then dropLit ps s else none

/-- Case-insensitive literal consumption (for `re.IGNORECASE` fragments); the
pattern is given in lowercase and input characters are lowered before
comparison. -/
def dropLitCI : List Char → List Char → Option (List Char)
  | [], s => some s
  | _ :: _, [] => none
  | p :: ps, c :: s => if c.toLower = p then dropLitCI ps s else none

/-- Decide whether `pat` occurs as a contiguous substring of `s`
(Python's `pat in s`). -/
def containsSub (pat : List Char) : List Char → Bool
  | [] => (dropLit pat []).isSome
  | c :: rest => (dropLit pat (c :: rest)).isSome || containsSub pat rest

/-- Lowercase a character list (Python's `str.lower`, ASCII fragment). -/
def lowerList (s : List Char) : List Char := s.map Char.toLower

/-- The negated character class `[^"]`. -/
def notQuote (c : Char) : Bool := c ≠ '"'

/-- The negated character class `[^;]`. -/
def notSemi (c : Char) : Bool := c ≠ ';'

/-- The negated character class `[^)]`. -/
def notRParen (c : Char) : Bool := c ≠ ')'

/-- Python's `.` without DOTALL: any character except the newline. -/
def notNewline (c : Char) : Bool := c ≠ '\n'

/-! ## Recognizer 1: test methods

`re.findall(r'@Test\s+(?:@\w+\(.*?\)\s+)*(?:@\w+\s+)*\w+\s+void\s+(\w+)',
content, re.MULTILINE | re.DOTALL)`.

The two starred annotation groups are matched with genuine backtracking:
the first group's body is `@\w+\(.*?\)\s+` whose lazy `.*?` (DOTALL: any
character) yields one candidate per `)` in the remaining text, in ascending
order; the second group's body `@\w+\s+` and the tail `\w+\s+void\s+(\w+)`
are deterministic because each maximal-munch run is followed by a character
class disjoint from the run's class, so no shorter run can succeed. -/

/-- All exits of one iteration of `@\w+\(.*?\)\s+`, in Python's backtracking
priority order (lazy `.*?`: earliest closing parenthesis first). -/
def bodyAOutcomes (s : List Char) : List (List Char) :=
  match s with
  | '@' :: s1 =>
    let w := s1.takeWhile isWordChar
    if w = [] then [] else
    match s1.dropWhile isWordChar with
    | '(' :: s2 =>
      (List.range s2.length).filterMap (fun j =>
        match s2.drop j with
        | ')' :: s3 =>
          let sp := s3.takeWhile isSpaceChar
          if sp = [] then none else some (s3.dropWhile isSpaceChar)
        | _ => none)
    | _ => []
  | _ => []

/-- The tail `\w+\s+void\s+(\w+)` of the test-method pattern; returns the
captured identifier and the rest of the input after the match. -/
def matchTestTail (s : List Char) : Option (List Char × List Char) :=
  let w := s.takeWhile isWordChar
  if w = [] then none else
  let s1 := s.dropWhile isWordChar
  let sp := s1.takeWhile isSpaceChar
  if sp = [] then none else
  match dropLit "void".toList (s1.dropWhile isSpaceChar) with
  | none => none
  | some s2 =>
    let sp2 := s2.takeWhile isSpaceChar
    if sp2 = [] then none else
    let s3 := s2.dropWhile isSpaceChar
    let nm := s3.takeWhile isWordChar
    if nm = [] then none else
    some (nm, s3.dropWhile isWordChar)

/-- One iteration of the second annotation group `@\w+\s+`. -/
def bodyB (s : List Char) : Option (List Char) :=
  match s with
  | '@' :: s1 =>
    let w := s1.takeWhile isWordChar
    if w = [] then none else
    let s2 := s1.dropWhile isWordChar
    let sp := s2.takeWhile isSpaceChar
    if sp = [] then none else some (s2.dropWhile isSpaceChar)
  | _ => none

/-- Greedy loop of `(?:@\w+\s+)*` followed by the tail.  When the loop body
fails the tail is tried at the current position; trying the tail after fewer
iterations is never needed because the tail's `\w+` cannot match the `@` the
body would have consumed. -/
def starB : Nat → List Char → Option (List Char × List Char)
  | 0, s => matchTestTail s
  | fuel + 1, s =>
    match bodyB s with
    | some r => starB fuel r
    | none => matchTestTail s

/-- Greedy loop of `(?:@\w+\(.*?\)\s+)*`: more iterations are preferred, and
within an iteration the lazy `.*?` candidates are tried in ascending order;
when every continuation fails the loop yields zero further iterations and
control passes to the second annotation group. -/
def starChainA : Nat → List Char → Option (List Char × List Char)
  | 0, s => starB s.length s
  | fuel + 1, s =>
    match (bodyAOutcomes s).findSome? (fun r => starChainA fuel r) with
    | some v => some v
    | none => starB s.length s

/-- Anchored matcher for the whole test-method pattern at one position. -/
def matchTestAt (s : List Char) : Option (List Char × List Char) :=
  match dropLit "@Test".toList s with
  | none => none
  | some s1 =>
    let sp := s1.takeWhile isSpaceChar
    if sp = [] then none else
    starChainA s1.length (s1.dropWhile isSpaceChar)

/-! ## Recognizer 2: nested test classes

`re.findall(r'@Nested\s+@DisplayName\("([^"]+)"\)\s+class\s+(\w+)', content)`.
Fully deterministic: every maximal-munch run is followed by a disjoint
literal. -/

/-- Anchored matcher for the nested-class pattern; returns the
`(displayName, className)` capture pair and the rest after the match. -/
def matchNestedAt (s : List Char) : Option ((List Char × List Char) × List Char) :=
  match dropLit "@Nested".toList s with
  | none => none
  | some s1 =>
    let sp := s1.takeWhile isSpaceChar
    if sp = [] then none else
    match dropLit ("@DisplayName(".toList ++ ['"']) (s1.dropWhile isSpaceChar) with
    | none => none
    | some s2 =>
      let d := s2.takeWhile notQuote
      if d = [] then none else
      match s2.dropWhile notQuote with
      | '"' :: ')' :: s3 =>
        let sp2 := s3.takeWhile isSpaceChar
        if sp2 = [] then none else
        match dropLit "class".toList (s3.dropWhile isSpaceChar) with
        | none => none
        | some s4 =>
          let sp3 := s4.takeWhile isSpaceChar
          if sp3 = [] then none else
          let s5 := s4.dropWhile isSpaceChar
          let cn := s5.takeWhile isWordChar
          if cn = [] then none else
          some ((d, cn), s5.dropWhile isWordChar)
      | _ => none

/-! ## Recognizer 3: helper methods

`re.findall(r'private\s+\w+.*?\s+(\w+)\([^)]*\)\s*\{', content)` (no DOTALL,
so `.` excludes the newline).  The interplay of the greedy `\w+` (longest
first) with the lazy `.*?` (shortest first) is reproduced by a finite search
in exactly that priority order; the tail after `.*?` is deterministic. -/

/-- The deterministic tail `\s+(\w+)\([^)]*\)\s*\{` of the helper pattern. -/
def helperTail (s : List Char) : Option (List Char × List Char) :=
  let sp := s.takeWhile isSpaceChar
  if sp = [] then none else
  let s1 := s.dropWhile isSpaceChar
  let nm := s1.takeWhile isWordChar
  if nm = [] then none else
  match s1.dropWhile isWordChar with
  | '(' :: s2 =>
    match s2.dropWhile notRParen with
    | ')' :: s3 =>
      match s3.dropWhile isSpaceChar with
      | '{' :: s4 => some (nm, s4)
      | _ => none
    | _ => none
  | _ => none

/-- Anchored matcher for the helper-method pattern. -/
def matchHelperAt (s : List Char) : Option (List Char × List Char) :=
  match dropLit "private".toList s with
  | none => none
  | some s0 =>
    let sp := s0.takeWhile isSpaceChar
    if sp = [] then none else
    let s1 := s0.dropWhile isSpaceChar
    let maxK := (s1.takeWhile isWordChar).length
    if maxK = 0 then none else
    ((List.range maxK).map (fun i => maxK - i)).findSome? (fun k =>
      let s2 := s1.drop k
      let lineLen := (s2.takeWhile notNewline).length
      (List.range (lineLen + 1)).findSome? (fun j => helperTail (s2.drop j)))

/-! ## Recognizer 4: imports

`re.findall(r'import\s+([^;]+);', content)`.  The greedy `\s+` is tried
longest first; for a given split the greedy `[^;]+` necessarily extends to
the first `;`. -/

/-- Anchored matcher for the import pattern; returns the captured dotted
path. -/
def matchImportAt (s : List Char) : Option (List Char × List Char) :=
  match dropLit "import".toList s with
  | none => none
  | some s0 =>
    let m := (s0.takeWhile isSpaceChar).length
    if m = 0 then none else
    ((List.range m).map (fun i => m - i)).findSome? (fun k =>
      let s1 := s0.drop k
      let body := s1.takeWhile notSemi
      if body = [] then none else
      match s1.dropWhile notSemi with
      | ';' :: s2 => some (body, s2)
      | _ => none)

/-! ## Recognizers 5-8: counted patterns -/

/-- Matcher for `assert\w+\(` (assertion call sites). -/
def matchAssertAt (s : List Char) : Option (Unit × List Char) :=
  match dropLit "assert".toList s with
  | none => none
  | some s0 =>
    let w := s0.takeWhile isWordChar
    if w = [] then none else
    match s0.dropWhile isWordChar with
    | '(' :: s1 => some ((), s1)
    | _ => none

/-- Matcher for `@Timeout` occurrences. -/
def matchTimeoutAt (s : List Char) : Option (Unit × List Char) :=
  match dropLit "@Timeout".toList s with
  | none => none
  | some s0 => some ((), s0)

/-- The `virtual.*thread` alternative of the concurrency pattern (IGNORECASE,
no DOTALL: the greedy `.*` stays on one line and prefers the latest
`thread`). -/
def matchVirtualAt (s : List Char) : Option (Unit × List Char) :=
  match dropLitCI "virtual".toList s with
  | none => none
  | some s0 =>
    let lineLen := (s0.takeWhile notNewline).length
    ((List.range (lineLen + 1)).map (fun i => lineLen - i)).findSome? (fun j =>
      match dropLitCI "thread".toList (s0.drop j) with
      | some s1 => some ((), s1)
      | none => none)

/-- Matcher for `CompletableFuture|ExecutorService|CountDownLatch|virtual.*thread` with
`re.IGNORECASE`; alternatives are tried left to right. -/
def matchConcurrencyAt (s : List Char) : Option (Unit × List Char) :=
  match dropLitCI "completablefuture".toList s with
  | some r => some ((), r)
  | none =>
    match dropLitCI "executorservice".toList s with
    | some r => some ((), r)
    | none =>
      match dropLitCI "countdownlatch".toList s with
      | some r => some ((), r)
      | none => matchVirtualAt s

/-- Matcher for `@ExtendWith\(MockitoExtension\.class\)` occurrences (mocking framework
marker in its exact annotation-with-argument form). -/
def matchMockitoAt (s : List Char) : Option (Unit × List Char) :=
  match dropLit "@ExtendWith(MockitoExtension.class)".toList s with
  | none => none
  | some s0 => some ((), s0)

/-! ## The `re.findall` scan driver -/

/-- One scanning pass: at each position try the anchored matcher; on success
record the value and resume after the match (Python advances by one position
when a match has zero width — none of the patterns here can, but the driver
is faithful to that rule).  Fuel is the remaining input length. -/
def scanAux (matchAt : List Char → Option (α × List Char)) :
    Nat → List Char → List α
  | 0, _ => []
  | _ + 1, [] => []
  | fuel + 1, c :: rest =>
    match matchAt (c :: rest) with
    | some (a, rem) =>
      a :: scanAux matchAt fuel (if rem.length ≤ rest.length then rem else rest)
    | none => scanAux matchAt fuel rest

/-- Python's `re.findall` for an anchored matcher. -/
def reFindall (matchAt : List Char → Option (α × List Char)) (s : List Char) :
    List α :=
  scanAux matchAt s.length s

/-! ## The analysis result and `analyze` -/

/-- The record assembled by `analyze_test_file` from the eight recognizers
(the mocking recognizer is kept as its occurrence count, exactly as the
script does; the boolean flag is its positivity, rendered `Yes`/`No`). -/
structure AnalysisResult where
  test_methods : List (List Char)
  nested_classes : List (List Char × List Char)
  helper_methods : List (List Char)
  imports : List (List Char)
  assertions : Nat
  timeouts : Nat
  concurrent_patterns : Nat
  mockito_usage : Nat
  deriving DecidableEq, Repr

/-- The extractor: all eight recognizers applied to the file text. -/
def analyze (content : List Char) : AnalysisResult :=
  { test_methods := reFindall matchTestAt content
    nested_classes := reFindall matchNestedAt content
    helper_methods := reFindall matchHelperAt content
    imports := reFindall matchImportAt content
    assertions := (reFindall matchAssertAt content).length
    timeouts := (reFindall matchTimeoutAt content).length
    concurrent_patterns := (reFindall matchConcurrencyAt content).length
    mockito_usage := (reFindall matchMockitoAt content).length }

/-! ## The Reporter

Each Python `print(x)` call becomes one element of the output line list, in
the script's fixed order; leading `\n` characters inside f-strings are kept
in the corresponding string. -/

/-- The banner line `"=" * 60`. -/
def eqBanner : String := String.mk (List.replicate 60 '=')

/-- The filter used by the Helper Methods section:
`'test' in h.lower() or 'create' in h.lower() or 'mock' in h.lower()`. -/
def relevantHelper (h : List Char) : Bool :=
  containsSub "test".toList (lowerList h) ||
  containsSub "create".toList (lowerList h) ||
  containsSub "mock".toList (lowerList h)

/-- Header banner prints. -/
def headerSection : List String :=
  [eqBanner, "CONCURRENTDUPLICATEFINDER TEST ANALYSIS", eqBanner]

/-- The `[TEST STRUCTURE]` section. -/
def testStructureSection (r : AnalysisResult) : List String :=
  ["\n[TEST STRUCTURE]:",
   "   * Total test methods: " ++ toString r.test_methods.length,
   "   * Nested test classes: " ++ toString r.nested_classes.length,
   "   * Helper methods: " ++ toString r.helper_methods.length,
   "   * Test imports: " ++ toString r.imports.length]

/-- The `[TEST COVERAGE]` section, with the mocking flag rendered
`Yes`/`No` from the positivity of the occurrence count. -/
def testCoverageSection (r : AnalysisResult) : List String :=
  ["\n[TEST COVERAGE]:",
   "   * Assertion statements: " ++ toString r.assertions,
   "   * Timeout constraints: " ++ toString r.timeouts,
   "   * Concurrency patterns: " ++ toString r.concurrent_patterns,
   "   * Mockito integration: " ++ (if 0 < r.mockito_usage then "Yes" else "No")]

/-- The `[NESTED TEST CLASSES]` section: one line per recognized pair. -/
def nestedClassesSection (r : AnalysisResult) : List String :=
  "\n[NESTED TEST CLASSES]:" ::
    r.nested_classes.map (fun p => "   * " ++ String.mk p.2 ++ ": " ++ String.mk p.1)

/-- The `[KEY TEST METHODS]` section: the first 10 names
(`test_methods[:10]`), then one `... and N more` line when more than 10
exist. -/
def keyTestMethodsSection (r : AnalysisResult) : List String :=
  "\n[KEY TEST METHODS] (sample):" ::
    ((r.test_methods.take 10).map (fun m => "   * " ++ String.mk m) ++
     (if 10 < r.test_methods.length then
        ["   ... and " ++ toString (r.test_methods.length - 10) ++ " more"]
      else []))

/-- The `[HELPER METHODS]` section: filter by `relevantHelper`, show the
first 5. -/
def helperMethodsSection (r : AnalysisResult) : List String :=
  "\n[HELPER METHODS]:" ::
    ((r.helper_methods.filter relevantHelper).take 5).map
      (fun h => "   * " ++ String.mk h)

/-- The static category list (presentational constant, not derived from the
file). -/
def categoriesList : List String :=
  ["Constructor and Configuration",
   "Empty and Null Input Handling",
   "Exact Duplicate Detection",
   "Metadata Duplicate Detection",
   "Size-based Duplicate Detection",
   "Concurrent Processing",
   "Deduplication and Priority",
   "Statistics Generation",
   "Resource Management",
   "Edge Cases and Error Handling",
   "Performance Testing"]

/-- The `[TEST CATEGORIES COVERED]` section. -/
def categoriesSection : List String :=
  "\n[TEST CATEGORIES COVERED]:" :: categoriesList.map (fun c => "   + " ++ c)

/-- The static feature list (presentational constant). -/
def featuresList : List String :=
  ["Virtual Thread Execution",
   "Async Operation Handling",
   "Multiple Concurrent Finders",
   "Exception Propagation",
   "Resource Cleanup",
   "Thread Safety"]

/-- The `[CONCURRENCY FEATURES TESTED]` section. -/
def featuresSection : List String :=
  "\n[CONCURRENCY FEATURES TESTED]:" :: featuresList.map (fun f => "   + " ++ f)

/-- The `[PERFORMANCE CHARACTERISTICS]` section: the timeout count again and
three fixed `YES` indicators. -/
def performanceSection (r : AnalysisResult) : List String :=
  ["\n[PERFORMANCE CHARACTERISTICS]:",
   "   * Timeout-constrained tests: " ++ toString r.timeouts,
   "   * Large dataset testing: YES",
   "   * Memory efficiency testing: YES",
   "   * Concurrent processing validation: YES"]

/-- The `[SUMMARY]` section: a templated paragraph interpolating the two
counts. -/
def summarySection (r : AnalysisResult) : List String :=
  ["\n[SUMMARY]:",
   "   The test suite provides comprehensive coverage of the",
   "   ConcurrentDuplicateFinder class with " ++ toString r.test_methods.length
     ++ " test methods",
   "   organized into " ++ toString r.nested_classes.length
     ++ " logical test groupings.",
   "   It includes concurrency testing, performance validation,",
   "   error handling, and edge case coverage."]

/-- The whole report, in the script's fixed section order. -/
def report (r : AnalysisResult) : List String :=
  headerSection ++ testStructureSection r ++ testCoverageSection r ++
  nestedClassesSection r ++ keyTestMethodsSection r ++ helperMethodsSection r ++
  categoriesSection ++ featuresSection ++ performanceSection r ++
  summarySection r ++ [eqBanner]

/-- The fixed relative path the script targets. -/
def testFilePath : String :=
  "src/test/java/com/musicorganizer/processor/ConcurrentDuplicateFinderTest.java"

/-- The whole run of `analyze_test_file`: the file system is modelled as the
optional content of the target file (`none` = `os.path.exists` is false).
A missing file produces the single explanatory message and an early return;
otherwise the extractor runs and the report is printed. -/
def analyzeTestFile (fileContent : Option (List Char)) : List String :=
  match fileContent with
  | none => ["Test file not found: " ++ testFilePath]
  | some content => report (analyze content)

/-! ## Input generators used by the per-construct theorems -/

/-- A file text containing one test-method declaration: optional surrounding
text, the `@Test` marker, one modifier word, `void`, the declared identifier
and its parameter list. -/
def mkTestMethodText (pre mod name post : List Char) : List Char :=
  pre ++ '@' :: 'T' :: 'e' :: 's' :: 't' :: ' ' ::
    (mod ++ ' ' :: 'v' :: 'o' :: 'i' :: 'd' :: ' ' :: (name ++ '(' :: ')' :: post))

/-- A file text consisting of `N` grouping declarations, each a `@Nested`
marker, a `@DisplayName` marker carrying a quoted string, and a named class. -/
def mkNestedText : List (List Char × List Char) → List Char
  | [] => []
  | (d, c) :: rest =>
    "@Nested @DisplayName(".toList ++ '"' :: (d ++ '"' :: ')' :: ' ' ::
      ('c' :: 'l' :: 'a' :: 's' :: 's' :: ' ' :: (c ++ ' ' :: mkNestedText rest)))

/-- A result whose only populated field is the test-method list (for the
sample-limiting instances). -/
def sampleResult (names : List (List Char)) : AnalysisResult :=
  ⟨names, [], [], [], 0, 0, 0, 0⟩

/-- A list of `n` single-letter test-method names. -/
def sampleNames (n : Nat) : List (List Char) := List.replicate n ['m']

/-- A file text consisting of a single import line `import <path>;`. -/
def mkImportLine (path : List Char) : List Char :=
  'i' :: 'm' :: 'p' :: 'o' :: 'r' :: 't' :: ' ' :: (path ++ [';'])

/-! ## Basic lemmas about the literal and scanning combinators -/

theorem dropLit_append (p s : List Char) : dropLit p (p ++ s) = some s := by
  induction p with
  | nil => rfl
  | cons c ps ih => simp [dropLit, ih]

theorem dropLit_eq_some (p : List Char) :
    ∀ s r : List Char, dropLit p s = some r → s = p ++ r := by
  induction p with
  | nil => intro s r h; simp [dropLit] at h; simp [h]
  | cons c ps ih =>
    intro s r h
    match s with
    | [] => simp [dropLit] at h
    | x :: s' =>
      simp only [dropLit] at h
      by_cases hx : x = c
      · subst hx; rw [if_pos rfl] at h
        simpa using ih s' r h
      · rw [if_neg hx] at h; exact absurd h (by simp)

theorem dropLitCI_eq_some (p : List Char) :
    ∀ s r : List Char, dropLitCI p s = some r →
      ∃ u, s = u ++ r ∧ u.map Char.toLower = p := by
  induction p with
  | nil =>
    intro s r h; simp [dropLitCI] at h
    exact ⟨[], by simp [h], rfl⟩
  | cons c ps ih =>
    intro s r h
    match s with
    | [] => simp [dropLitCI] at h
    | x :: s' =>
      simp only [dropLitCI] at h
      by_cases hx : x.toLower = c
      · rw [if_pos hx] at h
        obtain ⟨u, hu, hl⟩ := ih s' r h
        exact ⟨x :: u, by simp [hu], by simp [hl, hx]⟩
      · rw [if_neg hx] at h; exact absurd h (by simp)

theorem dropLit_nil_none (c : Char) (p : List Char) :
    dropLit (c :: p) [] = none := rfl

/-- A word character is never a whitespace character. -/
theorem not_space_of_word (c : Char) (h : isWordChar c = true) :
    isSpaceChar c = false := by
  by_contra hs
  rw [Bool.not_eq_false] at hs
  simp only [isSpaceChar, Bool.or_eq_true, decide_eq_true_eq] at hs
  rcases hs with ((((h1 | h1) | h1) | h1) | h1) | h1 <;> subst h1 <;>
    exact absurd h (by decide)

theorem takeWhile_app (p : Char → Bool) (l1 : List Char) (c : Char)
    (l2 : List Char) (h1 : ∀ a ∈ l1, p a = true) (h2 : p c = false) :
    (l1 ++ c :: l2).takeWhile p = l1 := by
  induction l1 with
  | nil => simp [List.takeWhile_cons, h2]
  | cons x xs ih =>
    simp only [List.cons_append, List.takeWhile_cons, h1 x (by simp)]
    simpa using ih (fun a ha => h1 a (by simp [ha]))

theorem dropWhile_app (p : Char → Bool) (l1 : List Char) (c : Char)
    (l2 : List Char) (h1 : ∀ a ∈ l1, p a = true) (h2 : p c = false) :
    (l1 ++ c :: l2).dropWhile p = c :: l2 := by
  induction l1 with
  | nil => simp [List.dropWhile_cons, h2]
  | cons x xs ih =>
    simp only [List.cons_append, List.dropWhile_cons, h1 x (by simp), if_pos]
    exact ih (fun a ha => h1 a (by simp [ha]))

/-! ## Lemmas about the `re.findall` driver -/

/-- The single-step unfolding of the scan driver at a nonempty input. -/
theorem scanAux_cons (f : List Char → Option (α × List Char)) (fuel : Nat)
    (c : Char) (rest : List Char) :
    scanAux f (fuel + 1) (c :: rest) =
      match f (c :: rest) with
      | some (a, rem) =>
        a :: scanAux f fuel (if rem.length ≤ rest.length then rem else rest)
      | none => scanAux f fuel rest := rfl

theorem scanAux_congr_fuel (f : List Char → Option (α × List Char)) :
    ∀ (fuel1 : Nat) (s : List Char) (fuel2 : Nat),
      s.length ≤ fuel1 → s.length ≤ fuel2 →
      scanAux f fuel1 s = scanAux f fuel2 s := by
  intro fuel1
  induction fuel1 with
  | zero =>
    intro s fuel2 h1 _
    have : s = [] := List.eq_nil_of_length_eq_zero (Nat.le_zero.mp h1)
    subst this
    cases fuel2 <;> rfl
  | succ n ih =>
    intro s fuel2 h1 h2
    match s with
    | [] => cases fuel2 <;> rfl
    | c :: rest =>
      match fuel2 with
      | 0 => simp at h2
      | m + 1 =>
        rw [scanAux_cons, scanAux_cons]
        cases hf : f (c :: rest) with
        | none =>
          exact ih rest m (by simpa using Nat.le_of_succ_le_succ h1)
            (by simpa using Nat.le_of_succ_le_succ h2)
        | some v =>
          obtain ⟨a, rem⟩ := v
          show a :: scanAux f n (if rem.length ≤ rest.length then rem else rest)
            = a :: scanAux f m (if rem.length ≤ rest.length then rem else rest)
          by_cases hr : rem.length ≤ rest.length
          · have hrn : rem.length ≤ n :=
              le_trans hr (by simpa using Nat.le_of_succ_le_succ h1)
            have hrm : rem.length ≤ m :=
              le_trans hr (by simpa using Nat.le_of_succ_le_succ h2)
            simp only [if_pos hr]
            rw [ih rem m hrn hrm]
          · simp only [if_neg hr]
            rw [ih rest m (by simpa using Nat.le_of_succ_le_succ h1)
              (by simpa using Nat.le_of_succ_le_succ h2)]

theorem scanAux_nil_of_none (f : List Char → Option (α × List Char)) :
    ∀ (fuel : Nat) (s : List Char),
      (∀ t, t <:+ s → f t = none) → scanAux f fuel s = [] := by
  intro fuel
  induction fuel with
  | zero => intro s _; rfl
  | succ n ih =>
    intro s h
    match s with
    | [] => rfl
    | c :: rest =>
      simp only [scanAux]
      rw [h (c :: rest) List.suffix_rfl]
      exact ih rest (fun t ht => h t (ht.trans (List.suffix_cons c rest)))

theorem reFindall_nil_of_none (f : List Char → Option (α × List Char))
    (s : List Char) (h : ∀ t, t <:+ s → f t = none) : reFindall f s = [] :=
  scanAux_nil_of_none f s.length s h

theorem reFindall_cons_of_match (f : List Char → Option (α × List Char))
    (s rem : List Char) (a : α) (h : f s = some (a, rem))
    (hlt : rem.length < s.length) :
    reFindall f s = a :: reFindall f rem := by
  match s with
  | [] => simp at hlt
  | c :: rest =>
    show scanAux f (rest.length + 1) (c :: rest) = _
    simp only [scanAux, h]
    have hr : rem.length ≤ rest.length := by
      simpa using Nat.lt_succ_iff.mp (by simpa using hlt)
    rw [if_pos hr]
    rw [scanAux_congr_fuel f rest.length rem rem.length hr le_rfl]
    rfl

theorem reFindall_append_skip (f : List Char → Option (α × List Char)) :
    ∀ (xs ys : List Char),
      (∀ u, u <:+ xs → u ≠ [] → f (u ++ ys) = none) →
      reFindall f (xs ++ ys) = reFindall f ys := by
  intro xs
  induction xs with
  | nil => intro ys _; rfl
  | cons x xs' ih =>
    intro ys h
    have hnone : f ((x :: xs') ++ ys) = none := h (x :: xs') List.suffix_rfl (by simp)
    have hstep : reFindall f ((x :: xs') ++ ys)
        = scanAux f (xs' ++ ys).length (xs' ++ ys) := by
      show scanAux f ((xs' ++ ys).length + 1) (x :: (xs' ++ ys)) = _
      rw [scanAux_cons, show (x :: (xs' ++ ys)) = (x :: xs') ++ ys from rfl, hnone]
    rw [hstep]
    exact ih ys (fun u hu hne => h u (hu.trans (List.suffix_cons x xs')) hne)

theorem exists_match_of_mem_scanAux (f : List Char → Option (α × List Char)) :
    ∀ (fuel : Nat) (s : List Char) (a : α), a ∈ scanAux f fuel s →
      ∃ t rem, f t = some (a, rem) := by
  intro fuel
  induction fuel with
  | zero => intro s a ha; simp [scanAux] at ha
  | succ n ih =>
    intro s a ha
    match s with
    | [] => simp [scanAux] at ha
    | c :: rest =>
      rw [scanAux_cons] at ha
      cases hf : f (c :: rest) with
      | none => rw [hf] at ha; exact ih rest a ha
      | some v =>
        obtain ⟨b, rem⟩ := v
        rw [hf] at ha
        rcases List.mem_cons.mp ha with h | h
        · subst h; exact ⟨c :: rest, rem, hf⟩
        · exact ih _ a h

theorem scanAux_ne_nil_of_match (f : List Char → Option (α × List Char)) :
    ∀ (fuel : Nat) (s t rem : List Char) (a : α),
      s.length ≤ fuel → t <:+ s → f t = some (a, rem) → t ≠ [] →
      scanAux f fuel s ≠ [] := by
  intro fuel
  induction fuel with
  | zero =>
    intro s t rem a hf ht hm htne
    have : s = [] := List.eq_nil_of_length_eq_zero (Nat.le_zero.mp hf)
    subst this
    exact absurd (List.suffix_nil.mp ht) htne
  | succ n ih =>
    intro s t rem a hfuel ht hm htne
    match s with
    | [] => exact absurd (List.suffix_nil.mp ht) htne
    | c :: rest =>
      rw [scanAux_cons]
      cases hf : f (c :: rest) with
      | some v => obtain ⟨b, r⟩ := v; simp
      | none =>
        rcases List.suffix_cons_iff.mp ht with h | h
        · subst h; rw [hm] at hf; exact absurd hf (by simp)
        · exact ih rest t rem a (by simpa using Nat.le_of_succ_le_succ hfuel)
            h hm htne

theorem reFindall_ne_nil_iff (f : List Char → Option (α × List Char))
    (s : List Char) (hnil : f [] = none) :
    reFindall f s ≠ [] ↔ ∃ t, t <:+ s ∧ f t ≠ none := by
  constructor
  · intro h
    by_contra hno
    push_neg at hno
    exact h (reFindall_nil_of_none f s (fun t ht => hno t ht))
  · rintro ⟨t, ht, hm⟩
    cases hv : f t with
    | none => exact absurd hv hm
    | some v =>
      obtain ⟨a, rem⟩ := v
      have htne : t ≠ [] := by
        rintro rfl; rw [hnil] at hv; exact absurd hv (by simp)
      exact scanAux_ne_nil_of_match f s.length s t rem a le_rfl ht hv htne

/-! ## Substring characterization -/

theorem containsSub_iff_exists (pat s : List Char) :
    containsSub pat s = true ↔ ∃ t r, t <:+ s ∧ t = pat ++ r := by
  induction s with
  | nil =>
    simp only [containsSub]
    constructor
    · intro h
      rw [Option.isSome_iff_exists] at h
      obtain ⟨r, hr⟩ := h
      exact ⟨[], r, List.suffix_rfl, dropLit_eq_some pat [] r hr⟩
    · rintro ⟨t, r, ht, rfl⟩
      have := List.suffix_nil.mp ht
      have hp : pat = [] := by
        cases pat with
        | nil => rfl
        | cons c ps => simp at this
      subst hp
      simp [dropLit] at this ⊢
  | cons c rest ih =>
    simp only [containsSub, Bool.or_eq_true]
    constructor
    · rintro (h | h)
      · rw [Option.isSome_iff_exists] at h
        obtain ⟨r, hr⟩ := h
        exact ⟨c :: rest, r, List.suffix_rfl, dropLit_eq_some pat _ r hr⟩
      · obtain ⟨t, r, ht, hr⟩ := ih.mp h
        exact ⟨t, r, ht.trans (List.suffix_cons c rest), hr⟩
    · rintro ⟨t, r, ht, rfl⟩
      rcases List.suffix_cons_iff.mp ht with h | h
      · left
        rw [← h, dropLit_append]
        simp
      · right
        exact ih.mpr ⟨pat ++ r, r, h, rfl⟩

theorem containsSub_infix_iff (pat s : List Char) :
    containsSub pat s = true ↔ pat <:+: s := by
  rw [containsSub_iff_exists]
  constructor
  · rintro ⟨t, r, ht, rfl⟩
    exact ((List.prefix_append pat r).isInfix).trans ht.isInfix
  · rintro ⟨u, v, rfl⟩
    exact ⟨pat ++ v, v, by simp, rfl⟩

/-- Decompose a list along a decomposition of its image under `map`. -/
theorem map_eq_append_decomp (f : Char → Char) :
    ∀ (l a b : List Char), l.map f = a ++ b →
      ∃ a2 b2, l = a2 ++ b2 ∧ a2.map f = a ∧ b2.map f = b := by
  intro l a
  induction a generalizing l with
  | nil => intro b h; exact ⟨[], l, rfl, rfl, by simpa using h⟩
  | cons x xs ih =>
    intro b h
    match l with
    | [] => simp at h
    | c :: l2 =>
      simp only [List.map_cons, List.cons_append, List.cons.injEq] at h
      obtain ⟨h1, h2⟩ := h
      obtain ⟨a2, b2, rfl, ha, hb⟩ := ih l2 b h2
      exact ⟨c :: a2, b2, rfl, by simp [h1, ha], hb⟩

/-- An infix of the lowercased list is the lowercase of an infix. -/
theorem infix_lower_iff (pat h : List Char) :
    pat <:+: lowerList h ↔ ∃ m, m <:+: h ∧ lowerList m = pat := by
  constructor
  · rintro ⟨u, v, huv⟩
    obtain ⟨a2, b2, rfl, ha, hb⟩ := map_eq_append_decomp Char.toLower h u (pat ++ v)
      (by simpa [lowerList] using huv.symm)
    obtain ⟨m, v2, rfl, hm, hv⟩ := map_eq_append_decomp Char.toLower b2 pat v hb
    exact ⟨m, ⟨a2, v2, by simp⟩, hm⟩
  · rintro ⟨m, ⟨u, v, rfl⟩, hm⟩
    exact ⟨u.map Char.toLower, v.map Char.toLower, by simp [lowerList, ← hm]⟩

/-! ## Anchoring facts about the individual matchers -/

theorem toList_atTest : "@Test".toList = ['@', 'T', 'e', 's', 't'] := rfl

theorem toList_atNested : "@Nested".toList = ['@', 'N', 'e', 's', 't', 'e', 'd'] := rfl

theorem toList_void : "void".toList = ['v', 'o', 'i', 'd'] := rfl

/-- A word character is not `@`. -/
theorem not_at_of_word (c : Char) (h : isWordChar c = true) : c ≠ '@' := by
  intro heq; subst heq; exact absurd h (by decide)

theorem matchTestAt_nil : matchTestAt [] = none := rfl

theorem matchTestAt_not_at (c : Char) (t : List Char) (h : c ≠ '@') :
    matchTestAt (c :: t) = none := by
  simp only [matchTestAt, toList_atTest, dropLit, if_neg h]

theorem matchNestedAt_nil : matchNestedAt [] = none := rfl

theorem matchNestedAt_not_at (c : Char) (t : List Char) (h : c ≠ '@') :
    matchNestedAt (c :: t) = none := by
  simp only [matchNestedAt, toList_atNested, dropLit, if_neg h]

/-- Skip a region containing no `@` when scanning with an `@`-anchored
matcher. -/
theorem reFindall_skip_no_at (f : List Char → Option (α × List Char))
    (hf : ∀ c t, c ≠ '@' → f (c :: t) = none)
    (xs ys : List Char) (hxs : ∀ c ∈ xs, c ≠ '@') :
    reFindall f (xs ++ ys) = reFindall f ys := by
  apply reFindall_append_skip
  intro u hu hne
  obtain ⟨c, t, rfl⟩ := List.exists_cons_of_ne_nil hne
  exact hf c (t ++ ys) (hxs c (hu.subset (List.mem_cons_self c t)))

/-- An `@`-free text yields no matches for an `@`-anchored matcher. -/
theorem reFindall_nil_no_at (f : List Char → Option (α × List Char))
    (hf : ∀ c t, c ≠ '@' → f (c :: t) = none) (hfnil : f [] = none)
    (s : List Char) (hs : ∀ c ∈ s, c ≠ '@') : reFindall f s = [] := by
  apply reFindall_nil_of_none
  intro t ht
  match t with
  | [] => exact hfnil
  | c :: t2 => exact hf c t2 (hs c (ht.subset (List.mem_cons_self c t2)))

theorem bodyAOutcomes_not_at (c : Char) (s : List Char) (h : c ≠ '@') :
    bodyAOutcomes (c :: s) = [] := by
  unfold bodyAOutcomes
  split
  · rename_i s1 heq
    injection heq with h1 _
    exact absurd h1 h
  · rfl

theorem bodyB_not_at (c : Char) (s : List Char) (h : c ≠ '@') :
    bodyB (c :: s) = none := by
  unfold bodyB
  split
  · rename_i s1 heq
    injection heq with h1 _
    exact absurd h1 h
  · rfl

theorem starB_eq_tail (s : List Char) (h : bodyB s = none) :
    ∀ fuel, starB fuel s = matchTestTail s := by
  intro fuel
  cases fuel with
  | zero => rfl
  | succ n => simp [starB, h]

theorem starChainA_eq_starB (s : List Char) (h : bodyAOutcomes s = []) :
    ∀ fuel, starChainA fuel s = starB s.length s := by
  intro fuel
  cases fuel with
  | zero => rfl
  | succ n => simp [starChainA, h]

/-! ## Evaluating the test-method matcher on a generated declaration -/

theorem matchTestTail_eval (mod name post : List Char)
    (hmod : mod ≠ []) (hmodw : ∀ c ∈ mod, isWordChar c = true)
    (hname : name ≠ []) (hnamew : ∀ c ∈ name, isWordChar c = true) :
    matchTestTail (mod ++ ' ' :: 'v' :: 'o' :: 'i' :: 'd' :: ' ' ::
      (name ++ '(' :: ')' :: post)) = some (name, '(' :: ')' :: post) := by
  obtain ⟨m0, mod2, rfl⟩ := List.exists_cons_of_ne_nil hmod
  obtain ⟨n0, name2, rfl⟩ := List.exists_cons_of_ne_nil hname
  have hn0 : isSpaceChar n0 = false := not_space_of_word n0 (hnamew n0 (by simp))
  have h1 : (m0 :: (mod2 ++ ' ' :: 'v' :: 'o' :: 'i' :: 'd' :: ' ' ::
      (n0 :: (name2 ++ '(' :: ')' :: post)))).takeWhile isWordChar = m0 :: mod2 := by
    simpa using takeWhile_app isWordChar (m0 :: mod2) ' '
      ('v' :: 'o' :: 'i' :: 'd' :: ' ' :: (n0 :: (name2 ++ '(' :: ')' :: post)))
      hmodw (by decide)
  have h2 : (m0 :: (mod2 ++ ' ' :: 'v' :: 'o' :: 'i' :: 'd' :: ' ' ::
      (n0 :: (name2 ++ '(' :: ')' :: post)))).dropWhile isWordChar
      = ' ' :: 'v' :: 'o' :: 'i' :: 'd' :: ' ' :: (n0 :: (name2 ++ '(' :: ')' :: post)) := by
    simpa using dropWhile_app isWordChar (m0 :: mod2) ' '
      ('v' :: 'o' :: 'i' :: 'd' :: ' ' :: (n0 :: (name2 ++ '(' :: ')' :: post)))
      hmodw (by decide)
  have h5 : (' ' :: 'v' :: 'o' :: 'i' :: 'd' :: ' ' ::
      (n0 :: (name2 ++ '(' :: ')' :: post))).takeWhile isSpaceChar = [' '] := by
    simp +decide [List.takeWhile_cons]
  have h6 : (' ' :: 'v' :: 'o' :: 'i' :: 'd' :: ' ' ::
      (n0 :: (name2 ++ '(' :: ')' :: post))).dropWhile isSpaceChar
      = 'v' :: 'o' :: 'i' :: 'd' :: ' ' :: (n0 :: (name2 ++ '(' :: ')' :: post)) := by
    simp +decide [List.dropWhile_cons]
  have h7 : dropLit ['v', 'o', 'i', 'd'] ('v' :: 'o' :: 'i' :: 'd' :: ' ' ::
      (n0 :: (name2 ++ '(' :: ')' :: post)))
      = some (' ' :: (n0 :: (name2 ++ '(' :: ')' :: post))) := by
    simp +decide [dropLit]
  have h8 : (' ' :: (n0 :: (name2 ++ '(' :: ')' :: post))).takeWhile isSpaceChar
      = [' '] := by
    simp +decide [List.takeWhile_cons, hn0]
  have h9 : (' ' :: (n0 :: (name2 ++ '(' :: ')' :: post))).dropWhile isSpaceChar
      = n0 :: (name2 ++ '(' :: ')' :: post) := by
    simp +decide [List.dropWhile_cons, hn0]
  have h3 : (n0 :: (name2 ++ '(' :: ')' :: post)).takeWhile isWordChar = n0 :: name2 := by
    simpa using takeWhile_app isWordChar (n0 :: name2) '(' (')' :: post) hnamew (by decide)
  have h4 : (n0 :: (name2 ++ '(' :: ')' :: post)).dropWhile isWordChar = '(' :: ')' :: post := by
    simpa using dropWhile_app isWordChar (n0 :: name2) '(' (')' :: post) hnamew (by decide)
  simp [matchTestTail, toList_void, h1, h2, h5, h6, h7, h8, h9, h3, h4]

theorem matchTestAt_eval (mod name post : List Char)
    (hmod : mod ≠ []) (hmodw : ∀ c ∈ mod, isWordChar c = true)
    (hname : name ≠ []) (hnamew : ∀ c ∈ name, isWordChar c = true) :
    matchTestAt ('@' :: 'T' :: 'e' :: 's' :: 't' :: ' ' ::
      (mod ++ ' ' :: 'v' :: 'o' :: 'i' :: 'd' :: ' ' :: (name ++ '(' :: ')' :: post)))
      = some (name, '(' :: ')' :: post) := by
  obtain ⟨m0, mod2, rfl⟩ := List.exists_cons_of_ne_nil hmod
  have hm0w : isWordChar m0 = true := hmodw m0 (by simp)
  have hm0 : isSpaceChar m0 = false := not_space_of_word m0 hm0w
  have hm0at : m0 ≠ '@' := not_at_of_word m0 hm0w
  have hA : dropLit ['@', 'T', 'e', 's', 't'] ('@' :: 'T' :: 'e' :: 's' :: 't' :: ' ' ::
      (m0 :: (mod2 ++ ' ' :: 'v' :: 'o' :: 'i' :: 'd' :: ' ' :: (name ++ '(' :: ')' :: post))))
      = some (' ' :: (m0 :: (mod2 ++ ' ' :: 'v' :: 'o' :: 'i' :: 'd' :: ' ' ::
          (name ++ '(' :: ')' :: post)))) := by
    simp +decide [dropLit]
  have hB : (' ' :: (m0 :: (mod2 ++ ' ' :: 'v' :: 'o' :: 'i' :: 'd' :: ' ' ::
      (name ++ '(' :: ')' :: post)))).takeWhile isSpaceChar = [' '] := by
    simp +decide [List.takeWhile_cons, hm0]
  have hC : (' ' :: (m0 :: (mod2 ++ ' ' :: 'v' :: 'o' :: 'i' :: 'd' :: ' ' ::
      (name ++ '(' :: ')' :: post)))).dropWhile isSpaceChar
      = m0 :: (mod2 ++ ' ' :: 'v' :: 'o' :: 'i' :: 'd' :: ' ' ::
          (name ++ '(' :: ')' :: post)) := by
    simp +decide [List.dropWhile_cons, hm0]
  have hbodyA : bodyAOutcomes (m0 :: (mod2 ++ ' ' :: 'v' :: 'o' :: 'i' :: 'd' :: ' ' ::
      (name ++ '(' :: ')' :: post))) = [] := bodyAOutcomes_not_at m0 _ hm0at
  have hbodyB : bodyB (m0 :: (mod2 ++ ' ' :: 'v' :: 'o' :: 'i' :: 'd' :: ' ' ::
      (name ++ '(' :: ')' :: post))) = none := bodyB_not_at m0 _ hm0at
  have htail := matchTestTail_eval (m0 :: mod2) name post (by simp) hmodw hname hnamew
  simp only [List.cons_append] at htail
  simp [matchTestAt, toList_atTest, hA, hB, hC,
    starChainA_eq_starB _ hbodyA, starB_eq_tail _ hbodyB, htail]

/-! ## Evaluating the nested-class matcher on generated declarations -/

theorem toList_nestedLead : "@Nested @DisplayName(".toList =
    ['@', 'N', 'e', 's', 't', 'e', 'd', ' ', '@', 'D', 'i', 's', 'p', 'l', 'a',
     'y', 'N', 'a', 'm', 'e', '('] := rfl

theorem toList_displayLead : "@DisplayName(".toList =
    ['@', 'D', 'i', 's', 'p', 'l', 'a', 'y', 'N', 'a', 'm', 'e', '('] := rfl

theorem toList_class : "class".toList = ['c', 'l', 'a', 's', 's'] := rfl

theorem dropLit_nested_step (X : List Char) :
    dropLit ['@', 'N', 'e', 's', 't', 'e', 'd']
      ('@' :: 'N' :: 'e' :: 's' :: 't' :: 'e' :: 'd' :: X) = some X := by
  simp +decide [dropLit]

theorem dropLit_display_step (X : List Char) :
    dropLit ['@', 'D', 'i', 's', 'p', 'l', 'a', 'y', 'N', 'a', 'm', 'e', '(', '"']
      ('@' :: 'D' :: 'i' :: 's' :: 'p' :: 'l' :: 'a' :: 'y' :: 'N' :: 'a' :: 'm'
        :: 'e' :: '(' :: '"' :: X) = some X := by
  simp +decide [dropLit]

theorem dropLit_class_step (X : List Char) :
    dropLit ['c', 'l', 'a', 's', 's'] ('c' :: 'l' :: 'a' :: 's' :: 's' :: X)
      = some X := by
  simp +decide [dropLit]

theorem takeWhile_space_at (c : Char) (X : List Char) (h : isSpaceChar c = false) :
    (' ' :: c :: X).takeWhile isSpaceChar = [' '] := by
  simp +decide [List.takeWhile_cons, h]

theorem dropWhile_space_at (c : Char) (X : List Char) (h : isSpaceChar c = false) :
    (' ' :: c :: X).dropWhile isSpaceChar = c :: X := by
  simp +decide [List.dropWhile_cons, h]

theorem takeWhile_ne_quote (d X : List Char) (hdq : ∀ ch ∈ d, ch ≠ '"') :
    ((d ++ '"' :: X).takeWhile notQuote) = d :=
  takeWhile_app _ d '"' X (fun a ha => by simp [notQuote, hdq a ha]) (by decide)

theorem dropWhile_ne_quote (d X : List Char) (hdq : ∀ ch ∈ d, ch ≠ '"') :
    ((d ++ '"' :: X).dropWhile notQuote) = '"' :: X :=
  dropWhile_app _ d '"' X (fun a ha => by simp [notQuote, hdq a ha]) (by decide)

theorem matchNestedAt_eval (d cn T : List Char)
    (hd : d ≠ []) (hdq : ∀ ch ∈ d, ch ≠ '"')
    (hcn : cn ≠ []) (hcnw : ∀ ch ∈ cn, isWordChar ch = true) :
    matchNestedAt ('@' :: 'N' :: 'e' :: 's' :: 't' :: 'e' :: 'd' :: ' ' :: '@'
      :: 'D' :: 'i' :: 's' :: 'p' :: 'l' :: 'a' :: 'y' :: 'N' :: 'a' :: 'm'
      :: 'e' :: '(' :: '"' ::
      (d ++ '"' :: ')' :: ' ' :: 'c' :: 'l' :: 'a' :: 's' :: 's' :: ' ' ::
        (cn ++ ' ' :: T))) = some ((d, cn), ' ' :: T) := by
  obtain ⟨c0, cn2, rfl⟩ := List.exists_cons_of_ne_nil hcn
  have hc0w : isWordChar c0 = true := hcnw c0 (by simp)
  have hc0 : isSpaceChar c0 = false := not_space_of_word c0 hc0w
  have htq : ((d ++ '"' :: ')' :: ' ' :: 'c' :: 'l' :: 'a' :: 's' :: 's' :: ' ' ::
      (c0 :: (cn2 ++ ' ' :: T))).takeWhile notQuote) = d :=
    takeWhile_ne_quote d _ hdq
  have hdq2 : ((d ++ '"' :: ')' :: ' ' :: 'c' :: 'l' :: 'a' :: 's' :: 's' :: ' ' ::
      (c0 :: (cn2 ++ ' ' :: T))).dropWhile notQuote)
      = '"' :: ')' :: ' ' :: 'c' :: 'l' :: 'a' :: 's' :: 's' :: ' ' ::
        (c0 :: (cn2 ++ ' ' :: T)) :=
    dropWhile_ne_quote d _ hdq
  have hcw : ((c0 :: (cn2 ++ ' ' :: T)).takeWhile isWordChar) = c0 :: cn2 := by
    simpa using takeWhile_app isWordChar (c0 :: cn2) ' ' T hcnw (by decide)
  have hcd : ((c0 :: (cn2 ++ ' ' :: T)).dropWhile isWordChar) = ' ' :: T := by
    simpa using dropWhile_app isWordChar (c0 :: cn2) ' ' T hcnw (by decide)
  simp +decide [matchNestedAt, toList_atNested, toList_displayLead,
    dropLit_nested_step, dropLit_display_step, dropLit_class_step,
    takeWhile_space_at, dropWhile_space_at, htq, hdq2, hcw, hcd, hd, hc0]

/-- Scanning a generated sequence of grouping declarations recovers exactly
the given pairs, in order. -/
theorem reFindall_mkNestedText (gs : List (List Char × List Char))
    (h : ∀ p ∈ gs, p.1 ≠ [] ∧ (∀ ch ∈ p.1, ch ≠ '"') ∧
      p.2 ≠ [] ∧ (∀ ch ∈ p.2, isWordChar ch = true)) :
    reFindall matchNestedAt (mkNestedText gs) = gs := by
  induction gs with
  | nil => rfl
  | cons p gs ih =>
    obtain ⟨d, cn⟩ := p
    obtain ⟨hd, hdq, hcn, hcnw⟩ := h (d, cn) (by simp)
    have heval := matchNestedAt_eval d cn (mkNestedText gs) hd hdq hcn hcnw
    have hform : mkNestedText ((d, cn) :: gs)
        = '@' :: 'N' :: 'e' :: 's' :: 't' :: 'e' :: 'd' :: ' ' :: '@' :: 'D'
          :: 'i' :: 's' :: 'p' :: 'l' :: 'a' :: 'y' :: 'N' :: 'a' :: 'm' :: 'e'
          :: '(' :: '"' ::
          (d ++ '"' :: ')' :: ' ' :: 'c' :: 'l' :: 'a' :: 's' :: 's' :: ' ' ::
            (cn ++ ' ' :: mkNestedText gs)) := rfl
    rw [hform, reFindall_cons_of_match matchNestedAt _ _ _ heval
      (by simp [List.length_cons, List.length_append]; omega)]
    rw [show (' ' :: mkNestedText gs) = [' '] ++ mkNestedText gs from rfl,
      reFindall_skip_no_at matchNestedAt matchNestedAt_not_at [' ']
        (mkNestedText gs) (by decide)]
    rw [ih (fun q hq => h q (by simp [hq]))]

/-- Every display-name capture of the nested-class matcher is nonempty and
free of double quotes (it is produced by `[^"]+`). -/
theorem matchNestedAt_display (t : List Char) (p : List Char × List Char)
    (rem : List Char) (h : matchNestedAt t = some (p, rem)) :
    p.1 ≠ [] ∧ ∀ ch ∈ p.1, ch ≠ '"' := by
  unfold matchNestedAt at h
  dsimp only at h
  repeat' split at h
  all_goals try exact Option.noConfusion h
  rw [Option.some.injEq] at h
  obtain ⟨hp, hrem⟩ := Prod.mk.inj h.symm
  subst hp
  constructor
  · assumption
  · intro ch hch
    have := List.mem_takeWhile_imp hch
    simpa [notQuote] using this

/-! ## Anchor consequences of a successful match -/

theorem matchTestAt_anchor (t : List Char) (h : matchTestAt t ≠ none) :
    ∃ r, t = "@Test".toList ++ r := by
  simp only [matchTestAt] at h
  cases hd : dropLit "@Test".toList t with
  | none => rw [hd] at h; simp at h
  | some r => exact ⟨r, dropLit_eq_some _ _ _ hd⟩

theorem matchNestedAt_anchor (t : List Char) (h : matchNestedAt t ≠ none) :
    ∃ r, t = "@Nested".toList ++ r := by
  simp only [matchNestedAt] at h
  cases hd : dropLit "@Nested".toList t with
  | none => rw [hd] at h; simp at h
  | some r => exact ⟨r, dropLit_eq_some _ _ _ hd⟩

theorem matchHelperAt_anchor (t : List Char) (h : matchHelperAt t ≠ none) :
    ∃ r, t = "private".toList ++ r := by
  simp only [matchHelperAt] at h
  cases hd : dropLit "private".toList t with
  | none => rw [hd] at h; simp at h
  | some r => exact ⟨r, dropLit_eq_some _ _ _ hd⟩

theorem matchImportAt_anchor (t : List Char) (h : matchImportAt t ≠ none) :
    ∃ r, t = "import".toList ++ r := by
  simp only [matchImportAt] at h
  cases hd : dropLit "import".toList t with
  | none => rw [hd] at h; simp at h
  | some r => exact ⟨r, dropLit_eq_some _ _ _ hd⟩

theorem matchAssertAt_anchor (t : List Char) (h : matchAssertAt t ≠ none) :
    ∃ r, t = "assert".toList ++ r := by
  simp only [matchAssertAt] at h
  cases hd : dropLit "assert".toList t with
  | none => rw [hd] at h; simp at h
  | some r => exact ⟨r, dropLit_eq_some _ _ _ hd⟩

theorem matchTimeoutAt_anchor (t : List Char) (h : matchTimeoutAt t ≠ none) :
    ∃ r, t = "@Timeout".toList ++ r := by
  simp only [matchTimeoutAt] at h
  cases hd : dropLit "@Timeout".toList t with
  | none => rw [hd] at h; simp at h
  | some r => exact ⟨r, dropLit_eq_some _ _ _ hd⟩

theorem matchMockitoAt_anchor (t : List Char) (h : matchMockitoAt t ≠ none) :
    ∃ r, t = "@ExtendWith(MockitoExtension.class)".toList ++ r := by
  simp only [matchMockitoAt] at h
  cases hd : dropLit "@ExtendWith(MockitoExtension.class)".toList t with
  | none => rw [hd] at h; simp at h
  | some r => exact ⟨r, dropLit_eq_some _ _ _ hd⟩

theorem matchConcurrencyAt_anchor (t : List Char) (h : matchConcurrencyAt t ≠ none) :
    "completablefuture".toList <+: lowerList t ∨
    "executorservice".toList <+: lowerList t ∨
    "countdownlatch".toList <+: lowerList t ∨
    "virtual".toList <+: lowerList t := by
  simp only [matchConcurrencyAt] at h
  cases h1 : dropLitCI "completablefuture".toList t with
  | some r =>
    obtain ⟨u, rfl, hu⟩ := dropLitCI_eq_some _ _ _ h1
    exact Or.inl ⟨lowerList r, by simp [lowerList, hu]⟩
  | none =>
    rw [h1] at h
    cases h2 : dropLitCI "executorservice".toList t with
    | some r =>
      obtain ⟨u, rfl, hu⟩ := dropLitCI_eq_some _ _ _ h2
      exact Or.inr (Or.inl ⟨lowerList r, by simp [lowerList, hu]⟩)
    | none =>
      rw [h2] at h
      cases h3 : dropLitCI "countdownlatch".toList t with
      | some r =>
        obtain ⟨u, rfl, hu⟩ := dropLitCI_eq_some _ _ _ h3
        exact Or.inr (Or.inr (Or.inl ⟨lowerList r, by simp [lowerList, hu]⟩))
      | none =>
        rw [h3] at h
        simp only [matchVirtualAt] at h
        cases h4 : dropLitCI "virtual".toList t with
        | some r =>
          obtain ⟨u, rfl, hu⟩ := dropLitCI_eq_some _ _ _ h4
          exact Or.inr (Or.inr (Or.inr ⟨lowerList r, by simp [lowerList, hu]⟩))
        | none => rw [h4] at h; simp at h

/-! ## Claim theorems -/

/-- A literal-anchored matcher cannot match anywhere when its anchor does not
occur in the text. -/
theorem no_match_of_no_anchor (f : List Char → Option (α × List Char))
    (A content : List Char)
    (hanchor : ∀ t, f t ≠ none → ∃ r, t = A ++ r)
    (habs : containsSub A content = false) :
    ∀ t, t <:+ content → f t = none := by
  intro t ht
  by_contra hm
  obtain ⟨r, rfl⟩ := hanchor t hm
  have : containsSub A content = true :=
    (containsSub_infix_iff _ _).mpr (((List.prefix_append A r).isInfix).trans ht.isInfix)
  rw [this] at habs
  exact Bool.noConfusion habs

/-- The concurrency matcher cannot match anywhere when none of its four
case-insensitive tokens occurs in the lowercased text. -/
theorem no_concurrency_match (content : List Char)
    (h7 : containsSub "completablefuture".toList (lowerList content) = false)
    (h8 : containsSub "executorservice".toList (lowerList content) = false)
    (h9 : containsSub "countdownlatch".toList (lowerList content) = false)
    (h10 : containsSub "virtual".toList (lowerList content) = false) :
    ∀ t, t <:+ content → matchConcurrencyAt t = none := by
  intro t ht
  by_contra hm
  have hsufl : lowerList t <:+ lowerList content := ht.map Char.toLower
  rcases matchConcurrencyAt_anchor t hm with hp | hp | hp | hp
  · rw [(containsSub_infix_iff _ _).mpr (hp.isInfix.trans hsufl.isInfix)] at h7
    exact Bool.noConfusion h7
  · rw [(containsSub_infix_iff _ _).mpr (hp.isInfix.trans hsufl.isInfix)] at h8
    exact Bool.noConfusion h8
  · rw [(containsSub_infix_iff _ _).mpr (hp.isInfix.trans hsufl.isInfix)] at h9
    exact Bool.noConfusion h9
  · rw [(containsSub_infix_iff _ _).mpr (hp.isInfix.trans hsufl.isInfix)] at h10
    exact Bool.noConfusion h10

/-- C1: for an input text in which no recognizer pattern can match (none of
the recognizers' anchor tokens occurs — zero recognizable constructs), the
analysis result has every sequence empty, every count zero, and the mocking
count zero (so the flag renders `No`); this is produced as a normal result. -/
theorem c1_no_constructs_all_empty (content : List Char)
    (h1 : containsSub "@Test".toList content = false)
    (h2 : containsSub "@Nested".toList content = false)
    (h3 : containsSub "private".toList content = false)
    (h4 : containsSub "import".toList content = false)
    (h5 : containsSub "assert".toList content = false)
    (h6 : containsSub "@Timeout".toList content = false)
    (h7 : containsSub "completablefuture".toList (lowerList content) = false)
    (h8 : containsSub "executorservice".toList (lowerList content) = false)
    (h9 : containsSub "countdownlatch".toList (lowerList content) = false)
    (h10 : containsSub "virtual".toList (lowerList content) = false)
    (h11 : containsSub "@ExtendWith(MockitoExtension.class)".toList content = false) :
    analyze content = ⟨[], [], [], [], 0, 0, 0, 0⟩ ∧
    analyzeTestFile (some content) = report ⟨[], [], [], [], 0, 0, 0, 0⟩ := by
  have e1 := reFindall_nil_of_none matchTestAt content
    (no_match_of_no_anchor matchTestAt _ content matchTestAt_anchor h1)
  have e2 := reFindall_nil_of_none matchNestedAt content
    (no_match_of_no_anchor matchNestedAt _ content matchNestedAt_anchor h2)
  have e3 := reFindall_nil_of_none matchHelperAt content
    (no_match_of_no_anchor matchHelperAt _ content matchHelperAt_anchor h3)
  have e4 := reFindall_nil_of_none matchImportAt content
    (no_match_of_no_anchor matchImportAt _ content matchImportAt_anchor h4)
  have e5 := reFindall_nil_of_none matchAssertAt content
    (no_match_of_no_anchor matchAssertAt _ content matchAssertAt_anchor h5)
  have e6 := reFindall_nil_of_none matchTimeoutAt content
    (no_match_of_no_anchor matchTimeoutAt _ content matchTimeoutAt_anchor h6)
  have e7 := reFindall_nil_of_none matchConcurrencyAt content
    (no_concurrency_match content h7 h8 h9 h10)
  have e8 := reFindall_nil_of_none matchMockitoAt content
    (no_match_of_no_anchor matchMockitoAt _ content matchMockitoAt_anchor h11)
  have hres : analyze content = ⟨[], [], [], [], 0, 0, 0, 0⟩ := by
    simp [analyze, e1, e2, e3, e4, e5, e6, e7, e8]
  exact ⟨hres, by rw [show analyzeTestFile (some content) = report (analyze content)
    from rfl, hres]⟩

/-- Witness for C1 at the concrete construct-free text `hello world`. -/
theorem c1_no_constructs_all_empty_witness :
    (containsSub "@Test".toList "hello world".toList = false ∧
     containsSub "import".toList "hello world".toList = false ∧
     containsSub "completablefuture".toList (lowerList "hello world".toList) = false) ∧
    analyze "hello world".toList = ⟨[], [], [], [], 0, 0, 0, 0⟩ :=
  ⟨⟨by decide, by decide, by decide⟩,
    (c1_no_constructs_all_empty "hello world".toList (by decide) (by decide)
      (by decide) (by decide) (by decide) (by decide) (by decide) (by decide)
      (by decide) (by decide) (by decide)).1⟩

/-- C2 counterexample: the two texts are identical except that the single
line of imports has been removed, yet besides `imports` the
`concurrent_patterns` count also changes (the import path itself contains
the `CompletableFuture` concurrency token), contradicting recognizer
independence as claimed. -/
theorem c2_recognizer_independence_counterexample :
    (analyze "import java.util.concurrent.CompletableFuture;\n".toList).imports ≠
      (analyze "".toList).imports ∧
    (analyze "import java.util.concurrent.CompletableFuture;\n".toList).concurrent_patterns = 1 ∧
    (analyze "".toList).concurrent_patterns = 0 := by
  refine ⟨by decide, by decide, by decide⟩

theorem toList_importWord : "import".toList = ['i', 'm', 'p', 'o', 'r', 't'] := rfl

theorem dropLit_import_step (X : List Char) :
    dropLit ['i', 'm', 'p', 'o', 'r', 't']
      ('i' :: 'm' :: 'p' :: 'o' :: 'r' :: 't' :: X) = some X := by
  simp +decide [dropLit]

/-- Evaluating the import matcher at an import line whose path starts with a
non-space character and contains no semicolon: the capture is exactly the
path. -/
theorem matchImportAt_eval (p0 : Char) (path2 : List Char)
    (hp0 : isSpaceChar p0 = false)
    (hsemi : ∀ c ∈ p0 :: path2, c ≠ ';') :
    matchImportAt ('i' :: 'm' :: 'p' :: 'o' :: 'r' :: 't' :: ' ' ::
      (p0 :: (path2 ++ [';']))) = some (p0 :: path2, []) := by
  have hbody : ((p0 :: (path2 ++ [';'])).takeWhile notSemi) = p0 :: path2 := by
    simpa using takeWhile_app notSemi (p0 :: path2) ';' []
      (fun a ha => by simp [notSemi, hsemi a ha]) (by decide)
  have hdropb : ((p0 :: (path2 ++ [';'])).dropWhile notSemi) = [';'] := by
    simpa using dropWhile_app notSemi (p0 :: path2) ';' []
      (fun a ha => by simp [notSemi, hsemi a ha]) (by decide)
  have hsp : ((' ' :: (p0 :: (path2 ++ [';']))).takeWhile isSpaceChar) = [' '] :=
    takeWhile_space_at p0 _ hp0
  have hns : notSemi p0 = true := by simp [notSemi, hsemi p0 (by simp)]
  simp [matchImportAt, toList_importWord, dropLit_import_step, hsp,
    List.range_succ, List.range_zero, List.findSome?, hbody, hdropb, hns]

/-- C2 amended: independence fails in general — removal can change another
field when the other pattern matches inside the removed text or newly
matches across the splice seam (concrete pair: removal creates a
`CompletableFuture` match) — but it does hold when nothing else can match:
for every text that is a single import line whose content carries no other
recognizer's anchor token, removing the line changes `imports` from the
captured path to empty and leaves every other field identical. -/
theorem c2_amended_seam_and_isolated_import_removal :
    ((analyze "Completableimport a;Future".toList).imports = ["a".toList] ∧
     (analyze "Completableimport a;Future".toList).concurrent_patterns = 0 ∧
     (analyze "CompletableFuture".toList).imports = [] ∧
     (analyze "CompletableFuture".toList).concurrent_patterns = 1) ∧
    (∀ (p0 : Char) (path2 : List Char),
      isSpaceChar p0 = false →
      (∀ c ∈ p0 :: path2, c ≠ ';') →
      containsSub "@Test".toList (mkImportLine (p0 :: path2)) = false →
      containsSub "@Nested".toList (mkImportLine (p0 :: path2)) = false →
      containsSub "private".toList (mkImportLine (p0 :: path2)) = false →
      containsSub "assert".toList (mkImportLine (p0 :: path2)) = false →
      containsSub "@Timeout".toList (mkImportLine (p0 :: path2)) = false →
      containsSub "completablefuture".toList (lowerList (mkImportLine (p0 :: path2))) = false →
      containsSub "executorservice".toList (lowerList (mkImportLine (p0 :: path2))) = false →
      containsSub "countdownlatch".toList (lowerList (mkImportLine (p0 :: path2))) = false →
      containsSub "virtual".toList (lowerList (mkImportLine (p0 :: path2))) = false →
      containsSub "@ExtendWith(MockitoExtension.class)".toList (mkImportLine (p0 :: path2)) = false →
      (analyze (mkImportLine (p0 :: path2))).imports = [p0 :: path2] ∧
      (analyze (mkImportLine (p0 :: path2))).imports ≠ (analyze ([] : List Char)).imports ∧
      (analyze (mkImportLine (p0 :: path2))).test_methods = (analyze ([] : List Char)).test_methods ∧
      (analyze (mkImportLine (p0 :: path2))).nested_classes = (analyze ([] : List Char)).nested_classes ∧
      (analyze (mkImportLine (p0 :: path2))).helper_methods = (analyze ([] : List Char)).helper_methods ∧
      (analyze (mkImportLine (p0 :: path2))).assertions = (analyze ([] : List Char)).assertions ∧
      (analyze (mkImportLine (p0 :: path2))).timeouts = (analyze ([] : List Char)).timeouts ∧
      (analyze (mkImportLine (p0 :: path2))).concurrent_patterns = (analyze ([] : List Char)).concurrent_patterns ∧
      (analyze (mkImportLine (p0 :: path2))).mockito_usage = (analyze ([] : List Char)).mockito_usage) := by
  refine ⟨⟨by decide, by decide, by decide, by decide⟩, ?_⟩
  intro p0 path2 hp0 hsemi h1 h2 h3 h5 h6 h7 h8 h9 h10 h11
  have himp : (analyze (mkImportLine (p0 :: path2))).imports = [p0 :: path2] := by
    show reFindall matchImportAt (mkImportLine (p0 :: path2)) = [p0 :: path2]
    unfold mkImportLine
    simp only [List.cons_append]
    rw [reFindall_cons_of_match matchImportAt _ [] _
      (matchImportAt_eval p0 path2 hp0 hsemi) (by simp)]
    rfl
  have e1 := reFindall_nil_of_none matchTestAt _
    (no_match_of_no_anchor matchTestAt _ _ matchTestAt_anchor h1)
  have e2 := reFindall_nil_of_none matchNestedAt _
    (no_match_of_no_anchor matchNestedAt _ _ matchNestedAt_anchor h2)
  have e3 := reFindall_nil_of_none matchHelperAt _
    (no_match_of_no_anchor matchHelperAt _ _ matchHelperAt_anchor h3)
  have e5 := reFindall_nil_of_none matchAssertAt _
    (no_match_of_no_anchor matchAssertAt _ _ matchAssertAt_anchor h5)
  have e6 := reFindall_nil_of_none matchTimeoutAt _
    (no_match_of_no_anchor matchTimeoutAt _ _ matchTimeoutAt_anchor h6)
  have e7 := reFindall_nil_of_none matchConcurrencyAt _
    (no_concurrency_match _ h7 h8 h9 h10)
  have e8 := reFindall_nil_of_none matchMockitoAt _
    (no_match_of_no_anchor matchMockitoAt _ _ matchMockitoAt_anchor h11)
  refine ⟨himp, ?_, ?_, ?_, ?_, ?_, ?_, ?_, ?_⟩
  · rw [himp, show (analyze ([] : List Char)).imports = [] from rfl]
    simp
  · show reFindall matchTestAt (mkImportLine (p0 :: path2)) = _
    rw [e1]
    rfl
  · show reFindall matchNestedAt (mkImportLine (p0 :: path2)) = _
    rw [e2]
    rfl
  · show reFindall matchHelperAt (mkImportLine (p0 :: path2)) = _
    rw [e3]
    rfl
  · show (reFindall matchAssertAt (mkImportLine (p0 :: path2))).length = _
    rw [e5]
    rfl
  · show (reFindall matchTimeoutAt (mkImportLine (p0 :: path2))).length = _
    rw [e6]
    rfl
  · show (reFindall matchConcurrencyAt (mkImportLine (p0 :: path2))).length = _
    rw [e7]
    rfl
  · show (reFindall matchMockitoAt (mkImportLine (p0 :: path2))).length = _
    rw [e8]
    rfl

/-- Witness for the amended C2 at the concrete path `java.util.List`. -/
theorem c2_amended_seam_and_isolated_import_removal_witness :
    isSpaceChar 'j' = false ∧
    (analyze (mkImportLine ('j' :: "ava.util.List".toList))).imports
      = [('j' :: "ava.util.List".toList)] ∧
    (analyze (mkImportLine ('j' :: "ava.util.List".toList))).concurrent_patterns
      = (analyze ([] : List Char)).concurrent_patterns := by
  have h := c2_amended_seam_and_isolated_import_removal.2 'j' "ava.util.List".toList
    (by decide) (by decide) (by decide) (by decide) (by decide) (by decide)
    (by decide) (by decide) (by decide) (by decide) (by decide) (by decide)
  exact ⟨by decide, h.1, h.2.2.2.2.2.2.2.1⟩

/-- C3 counterexample: `@Test void foo()` contains exactly one test-method
declaration marked `@Test` with no leading annotations, but the recognizer's
mandatory modifier word (`\w+` before `void`) fails to match, so
`test_methods` is empty rather than `[foo]`. -/
theorem c3_single_test_method_counterexample :
    (analyze "@Test void foo()".toList).test_methods = [] := by decide

/-- C3 amended: when the declaration carries a (nonempty) modifier word
between the marker and `void` — as the pattern `\w+\s+void` requires — the
recognizer returns exactly the declared identifier, once. -/
theorem c3_amended_single_test_method (pre mod name post : List Char)
    (hpre : ∀ c ∈ pre, c ≠ '@') (hpost : ∀ c ∈ post, c ≠ '@')
    (hmod : mod ≠ []) (hmodw : ∀ c ∈ mod, isWordChar c = true)
    (hname : name ≠ []) (hnamew : ∀ c ∈ name, isWordChar c = true) :
    (analyze (mkTestMethodText pre mod name post)).test_methods = [name] := by
  show reFindall matchTestAt _ = [name]
  unfold mkTestMethodText
  rw [reFindall_skip_no_at matchTestAt matchTestAt_not_at pre _ hpre]
  have heval := matchTestAt_eval mod name post hmod hmodw hname hnamew
  rw [reFindall_cons_of_match matchTestAt _ _ _ heval
    (by simp [List.length_cons, List.length_append]; omega)]
  rw [reFindall_nil_no_at matchTestAt matchTestAt_not_at matchTestAt_nil _
    (by
      intro c hc
      simp only [List.mem_cons] at hc
      rcases hc with rfl | rfl | hc
      · decide
      · decide
      · exact hpost c hc)]

/-- Witness for the amended C3 at a concrete declaration. -/
theorem c3_amended_single_test_method_witness :
    (analyze (mkTestMethodText [] "public".toList "shouldWork".toList [])).test_methods
      = ["shouldWork".toList] :=
  c3_amended_single_test_method [] "public".toList "shouldWork".toList []
    (by simp) (by simp) (by decide) (by decide) (by decide) (by decide)

/-- C4: a text of `N` grouping declarations (group marker, display-name
marker with a distinct nonempty quoted string, named class) yields exactly
the `N` (displayName, className) pairs, strings equal to the source text,
in order of appearance. -/
theorem c4_nested_groups_extraction (gs : List (List Char × List Char))
    (_hdistinct : gs.Pairwise (fun p q => p.1 ≠ q.1))
    (h : ∀ p ∈ gs, p.1 ≠ [] ∧ (∀ ch ∈ p.1, ch ≠ '"') ∧
      p.2 ≠ [] ∧ (∀ ch ∈ p.2, isWordChar ch = true)) :
    (analyze (mkNestedText gs)).nested_classes = gs :=
  reFindall_mkNestedText gs h

/-- Witness for C4 with two concrete grouping declarations. -/
theorem c4_nested_groups_extraction_witness :
    (analyze (mkNestedText [("Group A".toList, "GroupATests".toList),
      ("Group B".toList, "GroupBTests".toList)])).nested_classes
      = [("Group A".toList, "GroupATests".toList),
         ("Group B".toList, "GroupBTests".toList)] :=
  c4_nested_groups_extraction _ (by decide) (by decide)

/-- C5: the Key Test Methods section is the header line, the first
`min 10 (length)` names in recognized order, and — exactly when more than 10
names exist — one summary line with the remaining count; in particular 15
names yield the first 10 plus a `... and 5 more` line, and 3 names yield no
summary line. -/
theorem c5_key_test_methods_sample :
    (∀ r : AnalysisResult,
      keyTestMethodsSection r =
        "\n[KEY TEST METHODS] (sample):" ::
          ((r.test_methods.take (min 10 r.test_methods.length)).map
            (fun m => "   * " ++ String.mk m) ++
           (if 10 < r.test_methods.length then
              ["   ... and " ++ toString (r.test_methods.length - 10) ++ " more"]
            else []))) ∧
    keyTestMethodsSection (sampleResult (sampleNames 15)) =
      "\n[KEY TEST METHODS] (sample):" ::
        (List.replicate 10 "   * m" ++ ["   ... and 5 more"]) ∧
    keyTestMethodsSection (sampleResult (sampleNames 3)) =
      "\n[KEY TEST METHODS] (sample):" :: List.replicate 3 "   * m" := by
  have hmin : ∀ (l : List (List Char)), l.take (min 10 l.length) = l.take 10 := by
    intro l
    rw [← List.take_take, List.take_length]
  refine ⟨?_, by decide, by decide⟩
  intro r
  simp only [keyTestMethodsSection, hmin]

/-- C6: when the target path does not resolve to a file, the run emits the
single explanatory message, contains no report line (in particular no
banner), and is an ordinary value of the pipeline (graceful termination). -/
theorem c6_missing_file_single_message :
    analyzeTestFile none =
      ["Test file not found: src/test/java/com/musicorganizer/processor/ConcurrentDuplicateFinderTest.java"] ∧
    (analyzeTestFile none).length = 1 ∧
    (analyzeTestFile none).all (fun line => line != eqBanner) = true ∧
    (analyzeTestFile none).all
      (fun line => line != "CONCURRENTDUPLICATEFINDER TEST ANALYSIS") = true := by
  refine ⟨by decide, by decide, by decide, by decide⟩

/-- C7: the Helper Methods section is the header plus the first
`min 5 (filtered length)` filtered names in original order, where the filter
keeps exactly the names containing `test`, `create`, or `mock` as a
case-insensitive substring. -/
theorem c7_helper_methods_filter :
    (∀ r : AnalysisResult,
      helperMethodsSection r =
        "\n[HELPER METHODS]:" ::
          ((r.helper_methods.filter relevantHelper).take
            (min 5 (r.helper_methods.filter relevantHelper).length)).map
            (fun h2 => "   * " ++ String.mk h2)) ∧
    (∀ h2 : List Char, relevantHelper h2 = true ↔
      ∃ pat ∈ ["test".toList, "create".toList, "mock".toList],
        ∃ m, m <:+: h2 ∧ lowerList m = pat) := by
  constructor
  · have hmin : ∀ (l : List (List Char)), l.take (min 5 l.length) = l.take 5 := by
      intro l
      rw [← List.take_take, List.take_length]
    intro r
    simp only [helperMethodsSection, hmin]
  · intro h2
    simp only [relevantHelper, Bool.or_eq_true]
    rw [containsSub_infix_iff, containsSub_infix_iff, containsSub_infix_iff,
      infix_lower_iff, infix_lower_iff, infix_lower_iff]
    constructor
    · rintro ((⟨m, hm, hl⟩ | ⟨m, hm, hl⟩) | ⟨m, hm, hl⟩)
      · exact ⟨"test".toList, by simp, m, hm, hl⟩
      · exact ⟨"create".toList, by simp, m, hm, hl⟩
      · exact ⟨"mock".toList, by simp, m, hm, hl⟩
    · rintro ⟨pat, hpat, m, hm, hl⟩
      simp only [List.mem_cons, List.not_mem_nil, or_false] at hpat
      rcases hpat with rfl | rfl | rfl
      · exact Or.inl (Or.inl ⟨m, hm, hl⟩)
      · exact Or.inl (Or.inr ⟨m, hm, hl⟩)
      · exact Or.inr ⟨m, hm, hl⟩

/-- C8: the mocking count is positive exactly when the designated annotation
appears literally in its exact form as a substring of the text, and the
report always renders the flag as `Yes` for a positive count and `No`
otherwise. -/
theorem c8_mocking_flag_iff_literal :
    (∀ content : List Char,
      0 < (analyze content).mockito_usage ↔
        "@ExtendWith(MockitoExtension.class)".toList <:+: content) ∧
    (∀ r : AnalysisResult,
      ("   * Mockito integration: " ++ (if 0 < r.mockito_usage then "Yes" else "No"))
        ∈ report r) := by
  constructor
  · intro content
    show 0 < (reFindall matchMockitoAt content).length ↔ _
    rw [List.length_pos]
    rw [reFindall_ne_nil_iff matchMockitoAt content rfl]
    constructor
    · rintro ⟨t, ht, hm⟩
      obtain ⟨r, rfl⟩ := matchMockitoAt_anchor t hm
      exact ((List.prefix_append _ r).isInfix).trans ht.isInfix
    · rintro ⟨u, v, rfl⟩
      refine ⟨"@ExtendWith(MockitoExtension.class)".toList ++ v,
        ⟨u, by simp⟩, ?_⟩
      have hv : matchMockitoAt ("@ExtendWith(MockitoExtension.class)".toList ++ v)
          = some ((), v) := by
        unfold matchMockitoAt
        rw [dropLit_append]
      rw [hv]
      simp
  · intro r
    simp [report, testCoverageSection]

/-- C9: the report is a pure function of the analysis result: formatting the
same result twice is byte-identical, and the output depends only on the
eight record fields. -/
theorem c9_report_deterministic :
    (∀ r : AnalysisResult, report r = report r) ∧
    (∀ r1 r2 : AnalysisResult,
      r1.test_methods = r2.test_methods → r1.nested_classes = r2.nested_classes →
      r1.helper_methods = r2.helper_methods → r1.imports = r2.imports →
      r1.assertions = r2.assertions → r1.timeouts = r2.timeouts →
      r1.concurrent_patterns = r2.concurrent_patterns →
      r1.mockito_usage = r2.mockito_usage → report r1 = report r2) := by
  refine ⟨fun r => rfl, ?_⟩
  intro r1 r2 e1 e2 e3 e4 e5 e6 e7 e8
  cases r1
  cases r2
  simp_all

/-- Witness for C9 at a concrete result. -/
theorem c9_report_deterministic_witness :
    report ⟨[], [], [], [], 0, 0, 0, 0⟩ = report ⟨[], [], [], [], 0, 0, 0, 0⟩ :=
  c9_report_deterministic.2 _ _ rfl rfl rfl rfl rfl rfl rfl rfl

/-- C10: every recognized (displayName, className) pair has a nonempty
display name containing no double quote — an empty quoted display string is
never recognized. -/
theorem c10_display_nonempty_quote_free (content : List Char) :
    ∀ p ∈ (analyze content).nested_classes, p.1 ≠ [] ∧ ∀ ch ∈ p.1, ch ≠ '"' := by
  intro p hp
  obtain ⟨t, rem, hm⟩ :=
    exists_match_of_mem_scanAux matchNestedAt content.length content p hp
  exact matchNestedAt_display t p rem hm

/-- Witness for C10 at a concrete grouping declaration. -/
theorem c10_display_nonempty_quote_free_witness :
    (("G".toList, "GT".toList) ∈
      (analyze (mkNestedText [("G".toList, "GT".toList)])).nested_classes) ∧
    ("G".toList ≠ [] ∧ ∀ ch ∈ "G".toList, ch ≠ '"') :=
  ⟨by decide, c10_display_nonempty_quote_free
    (mkNestedText [("G".toList, "GT".toList)]) ("G".toList, "GT".toList)
    (by decide)⟩
